import Mathlib

/-!
Verification development for the repository script `precip/get_data.py`.

The script is a single linear loop: for each filename `f` in a hardcoded
list it builds the URL `base_url ++ "/" ++ f`, reads the remote payload as
a CSV table (`pd.read_csv`), builds the destination path
`os.path.join(target_dir, f ++ ".gz")`, and writes the table back out as a
gzip-compressed CSV (`df.to_csv(output_path, index=False,
compression='gzip')`).  Any failure propagates uncaught and aborts the run.

The embedding below models:
* CSV payloads as `List Char`, parsed by splitting on `'\n'` (lines) and
  `','` (fields), mirroring comma-separated text with a header row;
* the gzip container as a lossless wrapper `Gzipped` (the deflate bit
  stream lives in an external library; only losslessness is observable to
  this script);
* the environment (network and filesystem writability) as an explicit
  `Env`, the filesystem as an association list with most-recent-write
  precedence, and the loop as a recursive `runFrom` returning the request
  trace, the final filesystem and a success flag.
-/

set_option autoImplicit false

namespace GetData

/-- Cons a character onto the first group of a split result; used by
`splitOnChar` for the non-separator case. -/
def consHead (x : Char) : List (List Char) → List (List Char)
  | [] => [[x]]
  | y :: ys => (x :: y) :: ys

/-- Split a character list on a separator character.  `splitOnChar c l`
returns the (always nonempty) list of maximal separator-free groups, the
way `"a,b".split(",") = ["a", "b"]` behaves. -/
def splitOnChar (c : Char) : List Char → List (List Char)
  | [] => [[]]
  | x :: xs => if x = c then [] :: splitOnChar c xs else consHead x (splitOnChar c xs)

/-- Join a list of groups with a separator character, inverse to
`splitOnChar`. -/
def joinChar (c : Char) : List (List Char) → List Char
  | [] => []
  | l :: ls =>
    match ls with
    | [] => l
    | m :: ms => l ++ c :: joinChar c (m :: ms)

theorem consHead_ne_nil (x : Char) (r : List (List Char)) : consHead x r ≠ [] := by
  cases r <;> simp [consHead]

theorem splitOnChar_ne_nil (c : Char) (l : List Char) : splitOnChar c l ≠ [] := by
  induction l with
  | nil => simp [splitOnChar]
  | cons x xs ih =>
    by_cases hx : x = c
    · simp [splitOnChar, hx]
    · simpa [splitOnChar, hx] using consHead_ne_nil x (splitOnChar c xs)

theorem splitOnChar_of_not_mem (c : Char) (l : List Char) (h : c ∉ l) :
    splitOnChar c l = [l] := by
  induction l with
  | nil => simp [splitOnChar]
  | cons x xs ih =>
    have hx : ¬ x = c := fun hxc => h (hxc ▸ List.mem_cons_self x xs)
    have hxs : c ∉ xs := fun hc => h (List.mem_cons_of_mem x hc)
    simp [splitOnChar, hx, ih hxs, consHead]

theorem splitOnChar_append_sep (c : Char) (l rest : List Char) (h : c ∉ l) :
    splitOnChar c (l ++ c :: rest) = l :: splitOnChar c rest := by
  induction l with
  | nil => simp [splitOnChar]
  | cons x xs ih =>
    have hx : ¬ x = c := fun hxc => h (hxc ▸ List.mem_cons_self x xs)
    have hxs : c ∉ xs := fun hc => h (List.mem_cons_of_mem x hc)
    simp [splitOnChar, hx, ih hxs, consHead]

theorem joinChar_cons_cons (c : Char) (l m : List Char) (ms : List (List Char)) :
    joinChar c (l :: m :: ms) = l ++ c :: joinChar c (m :: ms) := by
  simp [joinChar]

theorem splitOnChar_cons (c x : Char) (xs : List Char) :
    splitOnChar c (x :: xs) =
      if x = c then [] :: splitOnChar c xs else consHead x (splitOnChar c xs) := rfl

theorem joinChar_splitOnChar (c : Char) (l : List Char) :
    joinChar c (splitOnChar c l) = l := by
  induction l with
  | nil => simp [splitOnChar, joinChar]
  | cons x xs ih =>
    obtain ⟨y, ys, hE⟩ := List.exists_cons_of_ne_nil (splitOnChar_ne_nil c xs)
    rw [hE] at ih
    by_cases hx : x = c
    · rw [splitOnChar_cons, if_pos hx, hE, joinChar_cons_cons, ih, hx]
      simp
    · rw [splitOnChar_cons, if_neg hx, hE]
      cases ys with
      | nil =>
        simp only [joinChar] at ih
        simp only [consHead, joinChar]
        exact congrArg (x :: ·) ih
      | cons z zs =>
        rw [joinChar_cons_cons] at ih
        simp only [consHead]
        rw [joinChar_cons_cons, List.cons_append, ih]

theorem splitOnChar_joinChar (c : Char) (ls : List (List Char)) (hne : ls ≠ [])
    (hfree : ∀ m ∈ ls, c ∉ m) : splitOnChar c (joinChar c ls) = ls := by
  induction ls with
  | nil => exact absurd rfl hne
  | cons l ls ih =>
    cases ls with
    | nil =>
      have : joinChar c [l] = l := by simp [joinChar]
      rw [this, splitOnChar_of_not_mem c l (hfree l (List.mem_cons_self l []))]
    | cons m ms =>
      rw [joinChar_cons_cons]
      rw [splitOnChar_append_sep c l _ (hfree l (List.mem_cons_self l _))]
      have hrec := ih (by simp) (fun g hg => hfree g (List.mem_cons_of_mem l hg))
      rw [hrec]

theorem not_mem_of_mem_splitOnChar (c : Char) (l : List Char) (m : List Char)
    (hm : m ∈ splitOnChar c l) : c ∉ m := by
  induction l generalizing m with
  | nil =>
    simp [splitOnChar] at hm
    simp [hm]
  | cons x xs ih =>
    by_cases hx : x = c
    · rw [splitOnChar, if_pos hx] at hm
      rcases List.mem_cons.mp hm with h | h
      · simp [h]
      · exact ih m h
    · rw [splitOnChar, if_neg hx] at hm
      obtain ⟨y, ys, hE⟩ := List.exists_cons_of_ne_nil (splitOnChar_ne_nil c xs)
      rw [hE] at hm
      simp only [consHead] at hm
      rcases List.mem_cons.mp hm with h | h
      · subst h
        intro hcm
        rcases List.mem_cons.mp hcm with h' | h'
        · exact hx h'.symm
        · exact ih y (hE ▸ List.mem_cons_self y ys) h'
      · exact ih m (hE ▸ List.mem_cons_of_mem y h)

theorem mem_of_mem_mem_splitOnChar (c : Char) (l : List Char) (m : List Char)
    (a : Char) (hm : m ∈ splitOnChar c l) (ha : a ∈ m) : a ∈ l := by
  induction l generalizing m with
  | nil =>
    simp [splitOnChar] at hm
    subst hm
    simp at ha
  | cons x xs ih =>
    by_cases hx : x = c
    · rw [splitOnChar, if_pos hx] at hm
      rcases List.mem_cons.mp hm with h | h
      · subst h; simp at ha
      · exact List.mem_cons_of_mem x (ih m h ha)
    · rw [splitOnChar, if_neg hx] at hm
      obtain ⟨y, ys, hE⟩ := List.exists_cons_of_ne_nil (splitOnChar_ne_nil c xs)
      rw [hE] at hm
      simp only [consHead] at hm
      rcases List.mem_cons.mp hm with h | h
      · subst h
        rcases List.mem_cons.mp ha with h' | h'
        · exact h' ▸ List.mem_cons_self x xs
        · exact List.mem_cons_of_mem x (ih y (hE ▸ List.mem_cons_self y ys) h')
      · exact List.mem_cons_of_mem x (ih m (hE ▸ List.mem_cons_of_mem y h) ha)

theorem not_mem_joinChar (c a : Char) (ls : List (List Char)) (hac : a ≠ c)
    (hfree : ∀ m ∈ ls, a ∉ m) : a ∉ joinChar c ls := by
  induction ls with
  | nil => simp [joinChar]
  | cons l ls ih =>
    cases ls with
    | nil =>
      have : joinChar c [l] = l := by simp [joinChar]
      rw [this]
      exact hfree l (List.mem_cons_self l [])
    | cons m ms =>
      rw [joinChar_cons_cons]
      intro hmem
      rcases List.mem_append.mp hmem with h | h
      · exact hfree l (List.mem_cons_self l _) h
      · rcases List.mem_cons.mp h with h' | h'
        · exact hac h'
        · exact ih (fun g hg => hfree g (List.mem_cons_of_mem l hg)) h'

/-- First line of a character payload: the head of its newline split. -/
def firstLine (s : List Char) : List Char := (splitOnChar '\n' s).headI

theorem firstLine_joinChar (hl : List Char) (rest : List (List Char))
    (h : '\n' ∉ hl) : firstLine (joinChar '\n' (hl :: rest)) = hl := by
  cases rest with
  | nil =>
    have : joinChar '\n' [hl] = hl := by simp [joinChar]
    rw [firstLine, this, splitOnChar_of_not_mem _ _ h]
    rfl
  | cons m ms =>
    rw [firstLine, joinChar_cons_cons, splitOnChar_append_sep _ _ _ h]
    rfl

/-- Tabular payload produced by `pd.read_csv`: a header row of column
names and a list of data rows, all fields kept as raw character lists (no
schema is declared or enforced by the script). -/
structure DataFrame where
  header : List (List Char)
  rows : List (List (List Char))
  deriving DecidableEq

/-- Model of `pd.read_csv` applied to a raw comma-separated payload: split
into lines on `'\n'`, take the first line as the header and the remaining
lines as rows, splitting each line into fields on `','`.  An empty payload
is a parse failure (pandas raises `EmptyDataError`), modelled as `none`. -/
def read_csv (x : List Char) : Option DataFrame :=
  if x = [] then none
  else
    match splitOnChar '\n' x with
    | [] => none
    | hd :: tl => some ⟨splitOnChar ',' hd, tl.map (fun r => splitOnChar ',' r)⟩

/-- Decimal digits of a natural number, used for the row-index column that
`to_csv` emits when `index=True`. -/
def natChars (n : Nat) : List Char := (Nat.repr n).data

/-- Model of `df.to_csv(..., index=index)`: serialize the header line then
one line per row, fields joined by `','` and lines by `'\n'`.  With
`index := true` pandas prepends an unnamed index column (empty header
field, then the row number on each row); the script under verification
always passes `index := false`. -/
def to_csv (df : DataFrame) (index : Bool) : List Char :=
  if index then
    joinChar '\n' (joinChar ',' ([] :: df.header) ::
      df.rows.enum.map (fun p => joinChar ',' (natChars p.1 :: p.2)))
  else
    joinChar '\n' (joinChar ',' df.header :: df.rows.map (fun r => joinChar ',' r))

/-- Gzip container, modelled as a lossless wrapper around the compressed
byte stream's preimage: the deflate encoding itself lives in an external
library and only its losslessness is observable to the script. -/
structure Gzipped where
  data : List Char
  deriving DecidableEq

/-- Gzip compression of a serialized payload. -/
def gzipCompress (s : List Char) : Gzipped := ⟨s⟩

/-- Gzip decompression, exact inverse of `gzipCompress`. -/
def gzipDecompress (g : Gzipped) : List Char := g.data

theorem read_csv_eq_some (x : List Char) (df : DataFrame) (h : read_csv x = some df) :
    x ≠ [] ∧ ∃ hd tl, splitOnChar '\n' x = hd :: tl ∧
      df = ⟨splitOnChar ',' hd, tl.map (fun r => splitOnChar ',' r)⟩ := by
  by_cases hx : x = []
  · rw [read_csv, if_pos hx] at h
    exact absurd h (by simp)
  · rw [read_csv, if_neg hx] at h
    obtain ⟨hd, tl, hE⟩ := List.exists_cons_of_ne_nil (splitOnChar_ne_nil '\n' x)
    rw [hE] at h
    refine ⟨hx, hd, tl, hE, ?_⟩
    exact (Option.some.injEq _ _ ▸ h).symm

/-- Serializing the parse of a payload with `index := false` reproduces
the payload exactly: the split/join pair is a bijection on the image of
`read_csv`. -/
theorem to_csv_read_csv (x : List Char) (df : DataFrame)
    (h : read_csv x = some df) : to_csv df false = x := by
  obtain ⟨hx, hd, tl, hE, hdf⟩ := read_csv_eq_some x df h
  subst hdf
  rw [to_csv]
  simp only [Bool.false_eq_true, if_false, List.map_map, Function.comp_def,
    joinChar_splitOnChar, List.map_id']
  rw [← hE, joinChar_splitOnChar '\n' x]

theorem read_csv_to_csv (x : List Char) (df : DataFrame)
    (h : read_csv x = some df) : read_csv (to_csv df false) = some df := by
  rw [to_csv_read_csv x df h]
  exact h

/-- Hardcoded remote root, from `base_url = "https://www.ncei.noaa.gov/data/daily-summaries/access"`. -/
def base_url : String := "https://www.ncei.noaa.gov/data/daily-summaries/access"

/-- Hardcoded local output directory, from `target_dir = "C:/Users/16343/Desktop/Stats-504-materials/precip"`. -/
def target_dir : String := "C:/Users/16343/Desktop/Stats-504-materials/precip"

/-- Hardcoded filename list, from `files = ["USW00094847.csv", "USW00012839.csv",]`. -/
def files : List String := ["USW00094847.csv", "USW00012839.csv"]

/-- Source URL for a filename, from `url = f"{base_url}/{f}"`. -/
def url (f : String) : String := base_url ++ "/" ++ f

/-- Path join, from `os.path.join` (modelled with the forward-slash
separator used throughout the script's own paths). -/
def pathJoin (d f : String) : String := d ++ "/" ++ f

/-- Destination path for a filename, from
`output_path = os.path.join(target_dir, f + ".gz")`. -/
def output_path (f : String) : String := pathJoin target_dir (f ++ ".gz")

/-- Environment of a run: what the network returns for each URL (`none`
models unreachability, an HTTP error status, or any other retrieval
failure) and whether a filesystem write to a given path succeeds. -/
structure Env where
  net : String → Option (List Char)
  writable : String → Bool

/-- Local filesystem: an association list from paths to gzip files, most
recent write first. -/
def FileSys : Type := List (String × Gzipped)

/-- Write (or overwrite) a path; the newest entry shadows older ones. -/
def fsWrite (fs : FileSys) (p : String) (v : Gzipped) : FileSys := (p, v) :: fs

/-- Look a path up in the filesystem, newest entry first. -/
def fsLookup (fs : FileSys) (p : String) : Option Gzipped :=
  match fs with
  | [] => none
  | (q, v) :: rest => if p = q then some v else fsLookup rest p

/-- Result of (a suffix of) a run: the URLs requested in order, the final
filesystem, and whether the run completed without an uncaught error. -/
structure RunResult where
  trace : List String
  fs : FileSys
  ok : Bool

/-- The loop `for f in files:` of the script, over an arbitrary remaining
worklist.  Each iteration requests `url f`; a retrieval failure, a parse
failure or a failed write raises, which aborts the whole run with the
filesystem as it stood (the in-memory `df` of the failed iteration is
lost, no destination file is produced for it).  On success the iteration
writes `gzipCompress (to_csv df false)` at `output_path f` and the loop
continues. -/
def runFrom (env : Env) (fs : FileSys) : List String → RunResult
  | [] => ⟨[], fs, true⟩
  | f :: rest =>
    match env.net (url f) with
    | none => ⟨[url f], fs, false⟩
    | some payload =>
      match read_csv payload with
      | none => ⟨[url f], fs, false⟩
      | some df =>
        if env.writable (output_path f) then
          let r := runFrom env (fsWrite fs (output_path f) (gzipCompress (to_csv df false))) rest
          ⟨url f :: r.trace, r.fs, r.ok⟩
        else ⟨[url f], fs, false⟩

/-- A whole run of the script over its hardcoded `files` list. -/
def run (env : Env) (fs0 : FileSys) : RunResult := runFrom env fs0 files

/-- An iteration for filename `f` completes without error in `env`: the
retrieval returns a payload that parses, and the destination is writable. -/
def itemOk (env : Env) (f : String) : Bool :=
  ((env.net (url f)).bind read_csv).isSome && env.writable (output_path f)

/-- Value the script stores at `output_path f` when the iteration for `f`
succeeds: the gzip compression of the re-serialized payload. -/
def writtenValue (env : Env) (f : String) : Option Gzipped :=
  ((env.net (url f)).bind read_csv).map (fun df => gzipCompress (to_csv df false))

theorem fsLookup_fsWrite_self (fs : FileSys) (p : String) (v : Gzipped) :
    fsLookup (fsWrite fs p v) p = some v := by
  simp [fsWrite, fsLookup]

theorem fsLookup_fsWrite_ne (fs : FileSys) (p q : String) (v : Gzipped)
    (h : p ≠ q) : fsLookup (fsWrite fs q v) p = fsLookup fs p := by
  simp [fsWrite, fsLookup, h]

theorem itemOk_elim (env : Env) (f : String) (h : itemOk env f = true) :
    ∃ payload df, env.net (url f) = some payload ∧ read_csv payload = some df ∧
      env.writable (output_path f) = true ∧
      writtenValue env f = some (gzipCompress (to_csv df false)) := by
  rw [itemOk, Bool.and_eq_true] at h
  obtain ⟨hbind, hw⟩ := h
  cases hnet : env.net (url f) with
  | none => rw [hnet] at hbind; simp at hbind
  | some payload =>
    rw [hnet] at hbind
    cases hdf : read_csv payload with
    | none => rw [Option.some_bind, hdf] at hbind; simp at hbind
    | some df =>
      exact ⟨payload, df, rfl, hdf, hw,
        by rw [writtenValue, hnet, Option.some_bind, hdf, Option.map_some']⟩

theorem runFrom_nil (env : Env) (fs : FileSys) : runFrom env fs [] = ⟨[], fs, true⟩ := rfl

theorem runFrom_cons_ok (env : Env) (fs : FileSys) (f : String) (rest : List String)
    (payload : List Char) (df : DataFrame)
    (h1 : env.net (url f) = some payload) (h2 : read_csv payload = some df)
    (h3 : env.writable (output_path f) = true) :
    runFrom env fs (f :: rest) =
      ⟨url f :: (runFrom env (fsWrite fs (output_path f) (gzipCompress (to_csv df false))) rest).trace,
       (runFrom env (fsWrite fs (output_path f) (gzipCompress (to_csv df false))) rest).fs,
       (runFrom env (fsWrite fs (output_path f) (gzipCompress (to_csv df false))) rest).ok⟩ := by
  simp only [runFrom, h1, h2, h3, if_true]

theorem runFrom_cons_fail (env : Env) (fs : FileSys) (f : String) (rest : List String)
    (h : itemOk env f = false) : runFrom env fs (f :: rest) = ⟨[url f], fs, false⟩ := by
  rw [itemOk] at h
  cases hnet : env.net (url f) with
  | none => simp only [runFrom, hnet]
  | some payload =>
    rw [hnet] at h
    cases hdf : read_csv payload with
    | none => simp only [runFrom, hnet, hdf]
    | some df =>
      rw [Option.some_bind, hdf] at h
      simp only [Option.isSome_some, Bool.true_and] at h
      simp only [runFrom, hnet, hdf, h, Bool.false_eq_true, if_false]

/-- A run only ever writes to the output paths of its worklist: any other
path keeps exactly the content (or absence) it had before the run, whether
the run succeeds or aborts. -/
theorem runFrom_lookup_untouched (env : Env) (l : List String) (fs : FileSys)
    (p : String) (hp : p ∉ l.map output_path) :
    fsLookup (runFrom env fs l).fs p = fsLookup fs p := by
  induction l generalizing fs with
  | nil => rfl
  | cons f rest ih =>
    have hpf : p ≠ output_path f := by
      intro hE; exact hp (hE ▸ List.mem_map_of_mem output_path (List.mem_cons_self f rest))
    have hprest : p ∉ rest.map output_path := by
      intro hmem
      rcases List.mem_map.mp hmem with ⟨g, hg, hgp⟩
      exact hp (List.mem_map.mpr ⟨g, List.mem_cons_of_mem f hg, hgp⟩)
    cases hok : itemOk env f with
    | false => rw [runFrom_cons_fail env fs f rest hok]
    | true =>
      obtain ⟨payload, df, h1, h2, h3, _⟩ := itemOk_elim env f hok
      rw [runFrom_cons_ok env fs f rest payload df h1 h2 h3]
      exact (ih _ hprest).trans (fsLookup_fsWrite_ne fs p (output_path f) _ hpf)

/-- When every item of the worklist succeeds, the run completes with
`ok = true` and its request trace is exactly the worklist mapped through
`url`, in order. -/
theorem runFrom_all_ok (env : Env) (l : List String) (fs : FileSys)
    (h : ∀ f ∈ l, itemOk env f = true) :
    (runFrom env fs l).ok = true ∧ (runFrom env fs l).trace = l.map url := by
  induction l generalizing fs with
  | nil => exact ⟨rfl, rfl⟩
  | cons f rest ih =>
    obtain ⟨payload, df, h1, h2, h3, _⟩ :=
      itemOk_elim env f (h f (List.mem_cons_self f rest))
    rw [runFrom_cons_ok env fs f rest payload df h1 h2 h3]
    obtain ⟨hok, htr⟩ := ih (fsWrite fs (output_path f) (gzipCompress (to_csv df false)))
      (fun g hg => h g (List.mem_cons_of_mem f hg))
    exact ⟨hok, by rw [List.map_cons, ← htr]⟩

/-- When every item succeeds and the output paths of the worklist are
pairwise distinct, the final filesystem holds `writtenValue env f` at
`output_path f` for each worklist member `f`. -/
theorem runFrom_lookup_written (env : Env) (l : List String) (fs : FileSys)
    (hnd : (l.map output_path).Nodup) (h : ∀ g ∈ l, itemOk env g = true)
    (f : String) (hf : f ∈ l) :
    fsLookup (runFrom env fs l).fs (output_path f) = writtenValue env f := by
  induction l generalizing fs with
  | nil => exact absurd hf (List.not_mem_nil f)
  | cons g rest ih =>
    obtain ⟨payload, df, h1, h2, h3, hval⟩ :=
      itemOk_elim env g (h g (List.mem_cons_self g rest))
    rw [runFrom_cons_ok env fs g rest payload df h1 h2 h3]
    rcases List.mem_cons.mp hf with hE | hmem
    · subst hE
      have hnotin : output_path f ∉ rest.map output_path :=
        (List.nodup_cons.mp (List.map_cons output_path f rest ▸ hnd)).1
      rw [runFrom_lookup_untouched env rest _ (output_path f) hnotin,
        fsLookup_fsWrite_self, hval]
    · exact ih _ (List.nodup_cons.mp (List.map_cons output_path g rest ▸ hnd)).2
        (fun g' hg' => h g' (List.mem_cons_of_mem g hg')) hmem

/-- A run over `pre ++ rest` whose `pre` items all succeed behaves as the
run over `pre` followed by the run over `rest` from the intermediate
filesystem: requests for `pre` come first, and the remainder of the run is
exactly the run over `rest`. -/
theorem runFrom_append (env : Env) (pre rest : List String) (fs : FileSys)
    (h : ∀ g ∈ pre, itemOk env g = true) :
    runFrom env fs (pre ++ rest) =
      ⟨pre.map url ++ (runFrom env (runFrom env fs pre).fs rest).trace,
       (runFrom env (runFrom env fs pre).fs rest).fs,
       (runFrom env (runFrom env fs pre).fs rest).ok⟩ := by
  induction pre generalizing fs with
  | nil => rfl
  | cons g pre' ih =>
    obtain ⟨payload, df, h1, h2, h3, _⟩ :=
      itemOk_elim env g (h g (List.mem_cons_self g pre'))
    rw [List.cons_append, runFrom_cons_ok env fs g (pre' ++ rest) payload df h1 h2 h3,
      runFrom_cons_ok env fs g pre' payload df h1 h2 h3,
      ih _ (fun g' hg' => h g' (List.mem_cons_of_mem g hg'))]
    simp

/-- The request trace of any run, successful or aborted, is an initial
segment of the worklist mapped through `url`: no later item's URL is ever
requested before every earlier item completed. -/
theorem runFrom_trace_initial (env : Env) (l : List String) (fs : FileSys) :
    ∃ t, l.map url = (runFrom env fs l).trace ++ t := by
  induction l generalizing fs with
  | nil => exact ⟨[], rfl⟩
  | cons f rest ih =>
    cases hok : itemOk env f with
    | false =>
      rw [runFrom_cons_fail env fs f rest hok]
      exact ⟨rest.map url, rfl⟩
    | true =>
      obtain ⟨payload, df, h1, h2, h3, _⟩ := itemOk_elim env f hok
      rw [runFrom_cons_ok env fs f rest payload df h1 h2 h3]
      obtain ⟨t, ht⟩ := ih (fsWrite fs (output_path f) (gzipCompress (to_csv df false)))
      exact ⟨t, by rw [List.map_cons, ht]; rfl⟩

/-- Sample upstream payload used to instantiate the theorems: two data
columns, a header row and two data rows. -/
def demoPayload : List Char := ("DATE,PRCP\n2020-01-01,0\n2020-01-02,5").data

/-- Second sample payload, with a different shape than `demoPayload`. -/
def demoPayload2 : List Char := ("STATION,DATE\nX,Y").data

/-- Environment in which both hardcoded files are retrievable and every
destination is writable. -/
def demoEnv : Env where
  net := fun u =>
    if u = url "USW00094847.csv" ∨ u = url "USW00012839.csv" then some demoPayload else none
  writable := fun _ => true

/-- Environment in which only the first hardcoded file is retrievable:
the second retrieval fails. -/
def failEnv : Env where
  net := fun u => if u = url "USW00094847.csv" then some demoPayload else none
  writable := fun _ => true

/-- Environment agreeing with `demoEnv` on the first file's URL but
serving a different payload for the second file. -/
def altEnv : Env where
  net := fun u =>
    if u = url "USW00094847.csv" then some demoPayload
    else if u = url "USW00012839.csv" then some demoPayload2 else none
  writable := fun _ => true

/-- Minimal payload and parsed table for the serialization witnesses. -/
def tinyPayload : List Char := ("A,B\n1,2").data

/-- Parse of `tinyPayload`: header `A,B` and the single row `1,2`. -/
def dfTiny : DataFrame := ⟨[['A'], ['B']], [[['1'], ['2']]]⟩

/-- Claim C1: over the fixed filename list of length N, a run in which
every retrieval and write succeeds creates exactly N destination files,
one per input filename, named with the `.gz` suffix appended; every other
path is left exactly as it was. -/
theorem c1_exactly_one_output_per_file (env : Env) (fs0 : FileSys)
    (h : ∀ f ∈ files, itemOk env f = true) :
    (run env fs0).ok = true ∧
    (∀ f ∈ files, (fsLookup (run env fs0).fs (output_path f)).isSome = true) ∧
    (∀ p, p ∉ files.map output_path → fsLookup (run env fs0).fs p = fsLookup fs0 p) ∧
    (files.map output_path).length = files.length := by
  refine ⟨(runFrom_all_ok env files fs0 h).1, ?_, ?_, by simp [files]⟩
  · intro f hf
    have hnd : (files.map output_path).Nodup := by decide
    rw [run, runFrom_lookup_written env files fs0 hnd h f hf]
    obtain ⟨payload, df, h1, h2, h3, hval⟩ := itemOk_elim env f (h f hf)
    rw [hval]
    rfl
  · intro p hp
    exact runFrom_lookup_untouched env files fs0 p hp

theorem c1_witness :
    (∀ f ∈ files, itemOk demoEnv f = true) ∧
    ((run demoEnv []).ok = true ∧
     (∀ f ∈ files, (fsLookup (run demoEnv []).fs (output_path f)).isSome = true) ∧
     (∀ p, p ∉ files.map output_path →
        fsLookup (run demoEnv []).fs p = fsLookup ([] : FileSys) p) ∧
     (files.map output_path).length = files.length) :=
  ⟨by decide, c1_exactly_one_output_per_file demoEnv [] (by decide)⟩

/-- Claim C2: for every successfully parsed payload, decompressing the
written destination content re-parses to the very same table — same
header and same row count as the upstream payload (one fewer than its
line count). -/
theorem c2_roundtrip (x : List Char) (df : DataFrame) (h : read_csv x = some df) :
    read_csv (gzipDecompress (gzipCompress (to_csv df false))) = some df ∧
    df.header = splitOnChar ',' (firstLine x) ∧
    df.rows.length + 1 = (splitOnChar '\n' x).length := by
  obtain ⟨hx, hd, tl, hE, hdf⟩ := read_csv_eq_some x df h
  refine ⟨read_csv_to_csv x df h, ?_, ?_⟩
  · rw [hdf, firstLine, hE]
    rfl
  · rw [hdf, hE]
    simp

theorem c2_witness :
    read_csv tinyPayload = some dfTiny ∧
    (read_csv (gzipDecompress (gzipCompress (to_csv dfTiny false))) = some dfTiny ∧
     dfTiny.header = splitOnChar ',' (firstLine tinyPayload) ∧
     dfTiny.rows.length + 1 = (splitOnChar '\n' tinyPayload).length) :=
  ⟨by decide, c2_roundtrip tinyPayload dfTiny (by decide)⟩

/-- Claim C3: every requested source URL is the base URL, a single `/`,
and the filename; for the hardcoded list the first request targets
`<base_url>/USW00094847.csv` and the second `<base_url>/USW00012839.csv`. -/
theorem c3_url_construction :
    (∀ f, url f = base_url ++ "/" ++ f) ∧
    url "USW00094847.csv" =
      "https://www.ncei.noaa.gov/data/daily-summaries/access/USW00094847.csv" ∧
    url "USW00012839.csv" =
      "https://www.ncei.noaa.gov/data/daily-summaries/access/USW00012839.csv" ∧
    ∀ env fs0, (∀ f ∈ files, itemOk env f = true) →
      (run env fs0).trace =
        ["https://www.ncei.noaa.gov/data/daily-summaries/access/USW00094847.csv",
         "https://www.ncei.noaa.gov/data/daily-summaries/access/USW00012839.csv"] := by
  refine ⟨fun f => rfl, by decide, by decide, fun env fs0 h => ?_⟩
  rw [run, (runFrom_all_ok env files fs0 h).2]
  decide

theorem c3_witness :
    (∀ f ∈ files, itemOk demoEnv f = true) ∧
    (run demoEnv ([] : FileSys)).trace =
      ["https://www.ncei.noaa.gov/data/daily-summaries/access/USW00094847.csv",
       "https://www.ncei.noaa.gov/data/daily-summaries/access/USW00012839.csv"] :=
  ⟨by decide, c3_url_construction.2.2.2 demoEnv [] (by decide)⟩

/-- Claim C4: every destination path is the target directory path-joined
with the filename plus `.gz`; the original `.csv` extension is preserved
and `.gz` appended. -/
theorem c4_output_path_construction :
    (∀ f, output_path f = target_dir ++ "/" ++ (f ++ ".gz")) ∧
    output_path "USW00094847.csv" =
      "C:/Users/16343/Desktop/Stats-504-materials/precip/USW00094847.csv.gz" ∧
    output_path "USW00012839.csv" =
      "C:/Users/16343/Desktop/Stats-504-materials/precip/USW00012839.csv.gz" :=
  ⟨fun f => rfl, by decide, by decide⟩

/-- Claim C5: if every item before position i succeeds and item i fails
(unreachable network, HTTP error, malformed CSV or unwritable
destination), the run aborts with an error: the trace stops at item i's
URL and no subsequent filename is ever requested. -/
theorem c5_abort_on_error (env : Env) (fs0 : FileSys) (pre : List String)
    (f : String) (post : List String)
    (hpre : ∀ g ∈ pre, itemOk env g = true) (hf : itemOk env f = false) :
    (runFrom env fs0 (pre ++ f :: post)).ok = false ∧
    (runFrom env fs0 (pre ++ f :: post)).trace = pre.map url ++ [url f] := by
  rw [runFrom_append env pre (f :: post) fs0 hpre, runFrom_cons_fail env _ f post hf]
  exact ⟨rfl, rfl⟩

theorem c5_witness :
    (∀ g ∈ ["USW00094847.csv"], itemOk failEnv g = true) ∧
    itemOk failEnv "USW00012839.csv" = false ∧
    ((run failEnv []).ok = false ∧
     (run failEnv []).trace = ["USW00094847.csv"].map url ++ [url "USW00012839.csv"]) :=
  ⟨by decide, by decide,
    c5_abort_on_error failEnv [] ["USW00094847.csv"] "USW00012839.csv" []
      (by decide) (by decide)⟩

/-- Claim C6: when item i fails, the filesystem is exactly what the run
over the preceding items produced — prior outputs are untouched, and no
output file appears for the failed item (at a fresh output path). -/
theorem c6_failure_leaves_prior_outputs (env : Env) (fs0 : FileSys) (pre : List String)
    (f : String) (post : List String)
    (hpre : ∀ g ∈ pre, itemOk env g = true) (hf : itemOk env f = false) :
    (runFrom env fs0 (pre ++ f :: post)).fs = (runFrom env fs0 pre).fs ∧
    (output_path f ∉ pre.map output_path → fsLookup fs0 (output_path f) = none →
      fsLookup (runFrom env fs0 (pre ++ f :: post)).fs (output_path f) = none) := by
  have hfs : (runFrom env fs0 (pre ++ f :: post)).fs = (runFrom env fs0 pre).fs := by
    rw [runFrom_append env pre (f :: post) fs0 hpre, runFrom_cons_fail env _ f post hf]
  refine ⟨hfs, fun hnotin h0 => ?_⟩
  rw [hfs, runFrom_lookup_untouched env pre fs0 _ hnotin, h0]

theorem c6_witness :
    fsLookup (run failEnv ([] : FileSys)).fs (output_path "USW00012839.csv") = none :=
  (c6_failure_leaves_prior_outputs failEnv [] ["USW00094847.csv"] "USW00012839.csv" []
    (by decide) (by decide)).2 (by decide) rfl

/-- Claim C7: re-running against the already-populated filesystem raises
no error and leaves every path with the same content as after the first
run — the second run silently overwrites each destination file with the
same freshly fetched content. -/
theorem c7_rerun_overwrites (env : Env) (fs0 : FileSys)
    (h : ∀ f ∈ files, itemOk env f = true) :
    (run env (run env fs0).fs).ok = true ∧
    ∀ p, fsLookup (run env (run env fs0).fs).fs p = fsLookup (run env fs0).fs p := by
  refine ⟨(runFrom_all_ok env files _ h).1, fun p => ?_⟩
  by_cases hp : p ∈ files.map output_path
  · rcases List.mem_map.mp hp with ⟨f, hf, hfp⟩
    subst hfp
    have hnd : (files.map output_path).Nodup := by decide
    simp only [run]
    rw [runFrom_lookup_written env files _ hnd h f hf,
      runFrom_lookup_written env files fs0 hnd h f hf]
  · simp only [run]
    rw [runFrom_lookup_untouched env files _ p hp]

theorem c7_witness :
    (∀ f ∈ files, itemOk demoEnv f = true) ∧
    ((run demoEnv (run demoEnv ([] : FileSys)).fs).ok = true ∧
     ∀ p, fsLookup (run demoEnv (run demoEnv ([] : FileSys)).fs).fs p =
       fsLookup (run demoEnv ([] : FileSys)).fs p) :=
  ⟨by decide, c7_rerun_overwrites demoEnv [] (by decide)⟩

/-- Claim C8: the items are processed strictly sequentially in list
order: the request trace of any run is an initial segment of the list
mapped through `url`, and a fully successful run requests exactly the
first file's URL and then the second file's URL, in that order. -/
theorem c8_sequential_in_list_order (env : Env) (fs0 : FileSys) :
    (∃ t, files.map url = (run env fs0).trace ++ t) ∧
    ((∀ f ∈ files, itemOk env f = true) →
      (run env fs0).trace = [url "USW00094847.csv", url "USW00012839.csv"]) := by
  refine ⟨runFrom_trace_initial env files fs0, fun h => ?_⟩
  rw [run, (runFrom_all_ok env files fs0 h).2]
  decide

theorem c8_witness :
    (∀ f ∈ files, itemOk demoEnv f = true) ∧
    (run demoEnv ([] : FileSys)).trace = [url "USW00094847.csv", url "USW00012839.csv"] :=
  ⟨by decide, (c8_sequential_in_list_order demoEnv []).2 (by decide)⟩

/-- Claim C9: no shared mutable state across iterations — whenever two
environments serve the same response for filename f's URL, two successful
runs write identical content at f's destination path, regardless of what
either environment serves for any other filename or of the starting
filesystems. -/
theorem c9_output_depends_only_on_own_payload (env1 env2 : Env) (fs1 fs2 : FileSys)
    (f : String) (hf : f ∈ files)
    (h1 : ∀ g ∈ files, itemOk env1 g = true) (h2 : ∀ g ∈ files, itemOk env2 g = true)
    (hnet : env1.net (url f) = env2.net (url f)) :
    fsLookup (run env1 fs1).fs (output_path f) =
      fsLookup (run env2 fs2).fs (output_path f) := by
  have hnd : (files.map output_path).Nodup := by decide
  simp only [run]
  rw [runFrom_lookup_written env1 files fs1 hnd h1 f hf,
    runFrom_lookup_written env2 files fs2 hnd h2 f hf, writtenValue, writtenValue, hnet]

theorem c9_witness :
    ("USW00094847.csv" ∈ files) ∧
    demoEnv.net (url "USW00094847.csv") = altEnv.net (url "USW00094847.csv") ∧
    fsLookup (run demoEnv ([] : FileSys)).fs (output_path "USW00094847.csv") =
      fsLookup (run altEnv ([] : FileSys)).fs (output_path "USW00094847.csv") :=
  ⟨by decide, by decide,
    c9_output_depends_only_on_own_payload demoEnv altEnv [] [] "USW00094847.csv"
      (by decide) (by decide) (by decide) (by decide)⟩

/-- Claim C10: the script serializes with `index := false`, so the
written content's header line carries exactly the parsed payload's
columns and no synthetic leading row-index column — which `index := true`
would have added as an extra unnamed leading column. -/
theorem c10_no_index_column (env : Env) (f : String) (payload : List Char)
    (df : DataFrame) (hnet : env.net (url f) = some payload)
    (hdf : read_csv payload = some df) :
    writtenValue env f = some (gzipCompress (to_csv df false)) ∧
    splitOnChar ',' (firstLine (gzipDecompress (gzipCompress (to_csv df false)))) = df.header ∧
    splitOnChar ',' (firstLine (to_csv df true)) = [] :: df.header := by
  obtain ⟨hx, hd, tl, hE, hdfE⟩ := read_csv_eq_some payload df hdf
  have hhd : hd ∈ splitOnChar '\n' payload := hE ▸ List.mem_cons_self hd tl
  have hnl_hd : '\n' ∉ hd := not_mem_of_mem_splitOnChar '\n' payload hd hhd
  have hheader : df.header = splitOnChar ',' hd := by rw [hdfE]
  have hfree_comma : ∀ m ∈ ([] : List Char) :: df.header, ',' ∉ m := by
    intro m hm
    rcases List.mem_cons.mp hm with hme | hm'
    · subst hme; simp
    · exact not_mem_of_mem_splitOnChar ',' hd m (hheader ▸ hm')
  have hfree_nl : ∀ m ∈ ([] : List Char) :: df.header, '\n' ∉ m := by
    intro m hm
    rcases List.mem_cons.mp hm with hme | hm'
    · subst hme; simp
    · intro hmem
      exact hnl_hd (mem_of_mem_mem_splitOnChar ',' hd m '\n' (hheader ▸ hm') hmem)
  refine ⟨?_, ?_, ?_⟩
  · rw [writtenValue, hnet, Option.some_bind, hdf, Option.map_some']
  · show splitOnChar ',' (firstLine (to_csv df false)) = df.header
    rw [to_csv_read_csv payload df hdf, firstLine, hE, hheader]
    rfl
  · rw [to_csv]
    simp only [if_true]
    rw [firstLine_joinChar _ _ (not_mem_joinChar ',' '\n' _ (by decide) hfree_nl)]
    exact splitOnChar_joinChar ',' ([] :: df.header) (by simp) hfree_comma

theorem c10_witness :
    Env.net ⟨fun _ => some tinyPayload, fun _ => true⟩ (url "USW00094847.csv") =
      some tinyPayload ∧
    read_csv tinyPayload = some dfTiny ∧
    (writtenValue ⟨fun _ => some tinyPayload, fun _ => true⟩ "USW00094847.csv" =
       some (gzipCompress (to_csv dfTiny false)) ∧
     splitOnChar ',' (firstLine (gzipDecompress (gzipCompress (to_csv dfTiny false)))) =
       dfTiny.header ∧
     splitOnChar ',' (firstLine (to_csv dfTiny true)) = [] :: dfTiny.header) :=
  ⟨by decide, by decide,
    c10_no_index_column ⟨fun _ => some tinyPayload, fun _ => true⟩ "USW00094847.csv"
      tinyPayload dfTiny rfl (by decide)⟩

end GetData
